import Mathlib

/-!
Verification development for the AutoRepack folder classification and
plan-assembly engine (`src/repacku/core/folder_analyzer.py`,
`src/repacku/core/fast_scanner.py`, `src/common_utils.py`).

The Python source is shallowly embedded: files are records of name,
extension and size; directories are a rose tree; Python `Counter` /
insertion-ordered dicts are association lists; the float folder weight
`depth + 0.1 * size_in_GB` is stored as an exact scaled integer; the feature flag
`get_single_image_compress_rule()` (read from `compression_config.json`
at run time) is an explicit boolean parameter.
-/

namespace AutoRepack

/-- Lowercase a string character-wise, modelling Python `str.lower()`
(ASCII-adequate for the extensions and keywords involved). -/
def lowerStr (s : String) : String := String.mk (s.data.map Char.toLower)

/-- Prefix test on strings, modelling Python `s.startswith(pre)`. -/
def strStartsWith (s pre : String) : Bool := pre.data.isPrefixOf s.data

/-- Occurrence of `pat` as a contiguous sublist of the argument,
modelling the Python substring test `pat in s`. -/
def hasSubList (pat : List Char) : List Char → Bool
  | [] => pat.isEmpty
  | c :: t => pat.isPrefixOf (c :: t) || hasSubList pat t

/-- Substring containment on strings: `containsSubStr s pat` is Python `pat in s`. -/
def containsSubStr (s pat : String) : Bool := hasSubList pat.data s.data

/-- Code-point comparison of character lists, modelling Python string
comparison (`<=` on `str` compares code points lexicographically). -/
def charListLe : List Char → List Char → Bool
  | [], _ => true
  | _ :: _, [] => false
  | a :: as, b :: bs =>
      if a.toNat < b.toNat then true
      else if a.toNat = b.toNat then charListLe as bs
      else false

/-- Lexicographic code-point order on strings (Python `a <= b`). -/
def nameLe (a b : String) : Bool := charListLe a.data b.data

/-- A direct file of a directory.  `ext` models `Path(name).suffix`
(the final dotted suffix, possibly empty) and is kept as written;
the embedding lowercases it wherever the source calls `.lower()`. -/
structure FsFile where
  name : String
  ext : String
  size : Nat
deriving DecidableEq, Repr

/-- Source `DEFAULT_FILE_TYPES` from `common_utils.py`, in dict insertion order. -/
def DEFAULT_FILE_TYPES : List (String × List String) :=
  [ ("text", [".txt", ".md", ".log", ".ini", ".cfg", ".conf", ".json", ".xml",
              ".yml", ".yaml", ".csv", ".convert"]),
    ("image", [".jpg", ".jpeg", ".png", ".gif", ".bmp", ".tiff", ".webp", ".svg",
               ".ico", ".raw", ".jxl", ".avif", ".psd"]),
    ("video", [".mp4", ".avi", ".mkv", ".mov", ".wmv", ".flv", ".webm", ".m4v",
               ".mpg", ".mpeg", ".nov"]),
    ("audio", [".mp3", ".wav", ".ogg", ".flac", ".aac", ".wma", ".m4a", ".opus"]),
    ("document", [".pdf", ".doc", ".docx", ".xls", ".xlsx", ".ppt", ".pptx",
                  ".odt", ".ods", ".odp"]),
    ("archive", [".zip", ".rar", ".7z", ".tar", ".gz", ".bz2", ".xz", ".iso",
                 ".cbz", ".cbr"]),
    ("code", [".py", ".js", ".html", ".css", ".java", ".c", ".cpp", ".cs",
              ".php", ".go", ".rs", ".rb", ".ts"]),
    ("font", [".ttf", ".otf", ".woff", ".woff2", ".eot"]),
    ("executable", [".exe", ".dll", ".bat", ".sh", ".msi", ".app", ".apk"]),
    ("model", [".pth", ".h5", ".pb", ".onnx", ".tflite", ".mlmodel", ".pt",
               ".bin", ".caffemodel"]) ]

/-- Source `BLACKLIST_KEYWORDS` from `common_utils.py` (including its
duplicated `.vs` entry). -/
def BLACKLIST_KEYWORDS : List String :=
  ["node_modules", "__pycache__", ".git", ".svn", "tmp", "temp",
   "cache", "logs", ".vscode", ".idea", ".vs", "画集", ".vs"]

def COMPRESS_MODE_ENTIRE : String := "entire"
def COMPRESS_MODE_SELECTIVE : String := "selective"
def COMPRESS_MODE_SKIP : String := "skip"

/-- Source `is_blacklisted_path`: some blacklist keyword occurs, case
insensitively, as a substring of the whole path string. -/
def isBlacklistedPath (pathStr : String) : Bool :=
  BLACKLIST_KEYWORDS.any (fun kw => containsSubStr (lowerStr pathStr) (lowerStr kw))

/-- Source `FastScanner._is_blacklisted_name`: the lowercased directory
name equals a keyword or starts with a keyword followed by a dot. -/
def isBlacklistedName (nm : String) : Bool :=
  BLACKLIST_KEYWORDS.any (fun kw =>
    lowerStr nm == lowerStr kw || strStartsWith (lowerStr nm) (lowerStr kw ++ "."))

/-- First type in `DEFAULT_FILE_TYPES` whose extension set holds `e`
(the loop in `FileTypeManager.get_file_type`). -/
def findExtType : List (String × List String) → String → Option String
  | [], _ => none
  | (t, exts) :: rest, e => if exts.contains e then some t else findExtType rest e

/-- Source `FileTypeManager.get_file_type`: extension lookup first, then the
well-known-filename fallback to category `text`. -/
def getFileType (f : FsFile) : Option String :=
  match findExtType DEFAULT_FILE_TYPES (lowerStr f.ext) with
  | some t => some t
  | none =>
      let nm := lowerStr f.name
      if containsSubStr nm "readme" || containsSubStr nm "license" ||
         containsSubStr nm "changelog" then some "text" else none

/-- Source `FileTypeManager.is_file_in_types`. -/
def isFileInTypes (f : FsFile) (targetTypes : List String) : Bool :=
  if targetTypes.isEmpty then true
  else
    match getFileType f with
    | some t => targetTypes.contains t
    | none =>
        targetTypes.any (fun tn =>
          match List.lookup tn DEFAULT_FILE_TYPES with
          | some exts => exts.contains (lowerStr f.ext)
          | none => false)

/-- Python `Counter` increment on an insertion-ordered association list. -/
def counterAdd : List (String × Nat) → String → List (String × Nat)
  | [], k => [(k, 1)]
  | (q, v) :: rest, k => if q = k then (q, v + 1) :: rest else (q, v) :: counterAdd rest k

/-- Python `counter.get(k, 0)`. -/
def counterGet : List (String × Nat) → String → Nat
  | [], _ => 0
  | (q, v) :: rest, k => if q = k then v else counterGet rest k

/-- Extension census of a list of files: lowercased non-empty suffixes only
(the `if ext:` guards in `_determine_compress_mode`). -/
def buildExtCount (files : List FsFile) : List (String × Nat) :=
  files.foldl (fun m f => if lowerStr f.ext = "" then m else counterAdd m (lowerStr f.ext)) []

/-- File-type census of a list of files (the loop over `get_mime_category`
in `_build_folder_tree`); unclassified files are not counted. -/
def censusOf (files : List FsFile) : List (String × Nat) :=
  files.foldl (fun m f => match getFileType f with
    | some t => counterAdd m t
    | none => m) []

/-- Source `try_extended_media_match` loop body: all files classify into the
extended media set, tracking whether an image was seen. -/
def tryExtendedMediaMatchGo : List FsFile → Bool → Bool
  | [], hasImage => hasImage
  | f :: rest, hasImage =>
      match getFileType f with
      | some t =>
          if t = "image" ∨ t = "document" ∨ t = "text" then
            tryExtendedMediaMatchGo rest (hasImage || t == "image")
          else false
      | none => false

/-- Source `try_extended_media_match` from `common_utils.py`. -/
def tryExtendedMediaMatch (files : List FsFile) : Bool :=
  if files.isEmpty then false else tryExtendedMediaMatchGo files false

/-- Files matching the target-type filter (the list comprehensions in
`_determine_compress_mode`). -/
def matchingFiles (files : List FsFile) (targetTypes : List String) : List FsFile :=
  files.filter (fun f => isFileInTypes f targetTypes)

/-- Single-file-is-an-image test of the feature-flagged special rule. -/
def isSingleImage : List FsFile → Bool
  | [f] => isFileInTypes f ["image"]
  | _ => false

/-- Guard of the single-image exception: flag enabled, no subdirectories,
exactly one file and it classifies as an image. -/
def singleImageFires (siRule hasSubfolders : Bool) (files : List FsFile) : Bool :=
  siRule && !hasSubfolders && isSingleImage files

/-- Source `FolderAnalyzer._determine_compress_mode`.  `siRule` models the
run-time flag `get_single_image_compress_rule()`; `hasSubfolders` models the
`folder_path.glob` subdirectory probe of the single-image rule; the caller
passes the census of `files` as `fileTypesCount` exactly as the source does. -/
def determineCompressMode (siRule : Bool) (folderPath : String) (hasSubfolders : Bool)
    (files : List FsFile) (fileTypesCount : List (String × Nat))
    (targetFileTypes : List String) (hasChildWithArchive : Bool)
    (minCount : Nat) : String × List (String × Nat) :=
  if files.isEmpty then (COMPRESS_MODE_SKIP, [])
  else if singleImageFires siRule hasSubfolders files then
    (COMPRESS_MODE_ENTIRE, buildExtCount files)
  else if isBlacklistedPath folderPath then (COMPRESS_MODE_SKIP, [])
  else if counterGet fileTypesCount "archive" > 0 || hasChildWithArchive then
    if targetFileTypes.isEmpty then (COMPRESS_MODE_SKIP, [])
    else
      let matching := matchingFiles files targetFileTypes
      if !matching.isEmpty && decide (minCount ≤ matching.length) then
        (COMPRESS_MODE_SELECTIVE, buildExtCount matching)
      else (COMPRESS_MODE_SKIP, [])
  else if targetFileTypes.isEmpty then
    if decide (minCount ≤ files.length) then (COMPRESS_MODE_ENTIRE, buildExtCount files)
    else (COMPRESS_MODE_SKIP, [])
  else
    let matching := matchingFiles files targetFileTypes
    let extCount := buildExtCount matching
    if decide (matching.length < minCount) then (COMPRESS_MODE_SKIP, extCount)
    else if matching.length == files.length && decide (0 < matching.length) then
      (COMPRESS_MODE_ENTIRE, extCount)
    else if targetFileTypes.contains "image" && decide (matching.length < files.length)
            && tryExtendedMediaMatch files then
      (COMPRESS_MODE_ENTIRE, buildExtCount files)
    else if decide (0 < matching.length) then (COMPRESS_MODE_SELECTIVE, extCount)
    else (COMPRESS_MODE_SKIP, extCount)

/-- A directory on disk: its final name, its direct files and its
subdirectories (a real filesystem hierarchy, hence a finite tree). -/
inductive FsDir where
  | mk (name : String) (files : List FsFile) (subdirs : List FsDir)

def FsDir.name : FsDir → String
  | .mk n _ _ => n

def FsDir.files : FsDir → List FsFile
  | .mk _ fs _ => fs

def FsDir.subdirs : FsDir → List FsDir
  | .mk _ _ ds => ds

mutual

/-- Source `get_folder_size`: recursive byte total over the whole subtree
(`os.walk` does not filter blacklisted directories). -/
def FsDir.totalSize : FsDir → Nat
  | .mk _ files subdirs =>
      (files.map (fun f => f.size)).sum + FsDir.totalSizeList subdirs

/-- Byte total of a list of sibling subtrees. -/
def FsDir.totalSizeList : List FsDir → Nat
  | [] => 0
  | d :: rest => FsDir.totalSize d + FsDir.totalSizeList rest

end

/-- Number of `os.sep`-separated components of a path string (the `depth`
of `calculate_folder_weight`), with `/` as separator:
`len(path.split("/"))` is one more than the number of separators. -/
def pathDepth (p : String) : Nat := p.data.countP (fun c => c == '/') + 1

/-- Source `calculate_folder_weight`: `depth + size_in_GB * 0.1`.  Every
weight is a rational with the fixed denominator `10 * 2 ^ 30`, so the
embedding stores the exact scaled numerator
`depth * (10 * 2 ^ 30) + total_size`; comparison and equality of weights
coincide with those of the source's value (float rounding aside). -/
def calcWeight (pathStr : String) (d : FsDir) : Nat :=
  pathDepth pathStr * (10 * 1024 * 1024 * 1024) + d.totalSize

/-- Source `_get_dominant_types`: category names sorted by count descending
(stably), truncated to the top three. -/
def dominantTypes (census : List (String × Nat)) : List String :=
  ((List.insertionSort (fun a b => b.2 ≤ a.2) census).map (fun t => t.1)).take 3

/-- Source `_generate_recommendation`. -/
def generateRecommendation (census : List (String × Nat)) (mode : String) : String :=
  if census.isEmpty then "空文件夹，无需处理"
  else
    let doms := String.intercalate ", " (dominantTypes census)
    if mode == COMPRESS_MODE_ENTIRE then "建议整体压缩，主要包含: " ++ doms
    else if mode == COMPRESS_MODE_SELECTIVE then "建议选择性压缩这些类型: " ++ doms
    else "建议自定义处理，主要包含: " ++ doms

/-- Source dataclass `FolderInfo` (the fields populated by
`_build_folder_tree`; `total_size`/`size_mb` are commented out there and stay
at their zero defaults, so they are omitted). -/
inductive FolderInfo where
  | mk (path name parentPath : String) (depth : Nat) (weight : Nat)
       (totalFiles : Nat) (fileTypes fileExtensions : List (String × Nat))
       (dominantTypes : List String) (compressMode recommendation : String)
       (children : List FolderInfo)

def FolderInfo.path : FolderInfo → String
  | .mk p _ _ _ _ _ _ _ _ _ _ _ => p

def FolderInfo.name : FolderInfo → String
  | .mk _ n _ _ _ _ _ _ _ _ _ _ => n

def FolderInfo.parentPath : FolderInfo → String
  | .mk _ _ pp _ _ _ _ _ _ _ _ _ => pp

def FolderInfo.depth : FolderInfo → Nat
  | .mk _ _ _ d _ _ _ _ _ _ _ _ => d

def FolderInfo.weight : FolderInfo → Nat
  | .mk _ _ _ _ w _ _ _ _ _ _ _ => w

def FolderInfo.totalFiles : FolderInfo → Nat
  | .mk _ _ _ _ _ t _ _ _ _ _ _ => t

def FolderInfo.fileTypes : FolderInfo → List (String × Nat)
  | .mk _ _ _ _ _ _ ft _ _ _ _ _ => ft

def FolderInfo.fileExtensions : FolderInfo → List (String × Nat)
  | .mk _ _ _ _ _ _ _ fe _ _ _ _ => fe

def FolderInfo.dominant : FolderInfo → List String
  | .mk _ _ _ _ _ _ _ _ dt _ _ _ => dt

def FolderInfo.compressMode : FolderInfo → String
  | .mk _ _ _ _ _ _ _ _ _ m _ _ => m

def FolderInfo.recommendation : FolderInfo → String
  | .mk _ _ _ _ _ _ _ _ _ _ r _ => r

def FolderInfo.children : FolderInfo → List FolderInfo
  | .mk _ _ _ _ _ _ _ _ _ _ _ cs => cs

instance : Inhabited FolderInfo :=
  ⟨FolderInfo.mk "" "" "" 0 0 0 [] [] [] "" "" []⟩

/-- Sibling comparison of `children.sort(key=lambda x: (-x.weight, x.name))`:
weight descending, then name ascending. -/
def weightNameRel (a b : FolderInfo) : Prop :=
  b.weight < a.weight ∨ (a.weight = b.weight ∧ nameLe a.name b.name = true)

instance : DecidableRel weightNameRel := fun a b =>
  inferInstanceAs (Decidable (b.weight < a.weight ∨
    (a.weight = b.weight ∧ nameLe a.name b.name = true)))

/-- Archive-or-skip child test of the `as_completed` loop in
`_build_folder_tree`. -/
def childArchOrSkip (c : FolderInfo) : Bool :=
  counterGet c.fileTypes "archive" > 0 || c.compressMode == COMPRESS_MODE_SKIP

/-- Non-skip child test of the downgrade loop in `_build_folder_tree`
(`compress_mode not in [None, "", COMPRESS_MODE_SKIP]`; modes in this
embedding are always one of the three constants). -/
def childNonSkip (c : FolderInfo) : Bool :=
  !(c.compressMode == "" || c.compressMode == COMPRESS_MODE_SKIP)

/-- Node assembly step of `_build_folder_tree`, applied once the child
subtrees have been built: compute the archive-or-skip child flag over the
completion-ordered child list, sort the children, run the resolver and
apply the downgrade loop. -/
def assembleNode (pathStr nm parentPath : String) (depth : Nat) (w : Nat)
    (files : List FsFile) (hasSubdirs : Bool) (targets : List String)
    (siRule : Bool) (children1 : List FolderInfo) : FolderInfo :=
  let hasChildArch := children1.any childArchOrSkip
  let children := List.insertionSort weightNameRel children1
  let census := censusOf files
  let mr := determineCompressMode siRule pathStr hasSubdirs files census
    targets hasChildArch 2
  let mode := if children.any childNonSkip && mr.1 == COMPRESS_MODE_ENTIRE
              then COMPRESS_MODE_SELECTIVE else mr.1
  FolderInfo.mk pathStr nm parentPath depth w
    files.length census mr.2 (dominantTypes census) mode
    (generateRecommendation census mode) children

mutual

/-- Source `FolderAnalyzer._build_folder_tree`.  `σ` models the
nondeterministic `as_completed` completion order of the child worker
threads: the per-node permutation it applies to the just-built child list
before the flag computation and the deterministic sort. -/
def buildTree (σ : String → List FolderInfo → List FolderInfo)
    (targets : List String) (siRule : Bool) :
    String → String → Nat → FsDir → Option FolderInfo
  | parentPath, pathStr, depth, FsDir.mk nm files subdirs =>
    if isBlacklistedPath pathStr then none
    else
      some (assembleNode pathStr nm parentPath depth
        (calcWeight pathStr (FsDir.mk nm files subdirs))
        files (!subdirs.isEmpty) targets siRule
        (σ pathStr (buildTreeList σ targets siRule pathStr depth subdirs)))

/-- Recursive construction of the child subtrees (the `process_child`
fan-out); blacklisted children return `None` and are dropped. -/
def buildTreeList (σ : String → List FolderInfo → List FolderInfo)
    (targets : List String) (siRule : Bool) :
    String → Nat → List FsDir → List FolderInfo
  | _, _, [] => []
  | pathStr, depth, d :: rest =>
    match buildTree σ targets siRule pathStr (pathStr ++ "/" ++ d.name)
        (depth + 1) d with
    | some c => c :: buildTreeList σ targets siRule pathStr depth rest
    | none => buildTreeList σ targets siRule pathStr depth rest

end

/-- Source `analyze_folder_structure`: the root build call
`_build_folder_tree(root_folder, "", 1, target_file_types)`. -/
def analyzeFolderStructure (σ : String → List FolderInfo → List FolderInfo)
    (targets : List String) (siRule : Bool) (rootPath : String) (fs : FsDir) :
    Option FolderInfo :=
  buildTree σ targets siRule "" rootPath 1 fs

/-- Serialized plan envelope written by `generate_config_json`: the plan
tree plus a config block carrying the run timestamp and the target-type
filter.  The JSON writer is an injective function of these data, so equality
of `ConfigOut` values models byte-identical output files. -/
structure ConfigOut where
  folderTree : FolderInfo
  timestamp : String
  targetFileTypes : List String

/-- Source `generate_config_json` (the data it serializes; `timestamp`
models `datetime.datetime.now().isoformat()` at write time). -/
def generateConfig (σ : String → List FolderInfo → List FolderInfo)
    (targets : List String) (siRule : Bool) (rootPath : String) (fs : FsDir)
    (timestamp : String) : Option ConfigOut :=
  (analyzeFolderStructure σ targets siRule rootPath fs).map
    (fun tr => ConfigOut.mk tr timestamp targets)

/-- Source `fast_get_file_type`: extension-only lookup in the precomputed
reverse index (no filename fallback). -/
def fastFileType (ext : String) : Option String :=
  findExtType DEFAULT_FILE_TYPES (lowerStr ext)

/-- Fast scanner's per-directory file-type census (`scan_single_folder`). -/
def fastCensus (files : List FsFile) : List (String × Nat) :=
  files.foldl (fun m f => match fastFileType f.ext with
    | some t => counterAdd m t
    | none => m) []

/-- Source `FastFolderAnalyzer._determine_compress_mode_fast`. -/
def fastMode (files : List FsFile) (ftypes : List (String × Nat))
    (targets : List String) (hasChildArchive : Bool) : String :=
  if files.isEmpty then COMPRESS_MODE_SKIP
  else if counterGet ftypes "archive" > 0 || hasChildArchive then
    if targets.isEmpty then COMPRESS_MODE_SKIP
    else if 2 ≤ (targets.map (fun t => counterGet ftypes t)).sum then
      COMPRESS_MODE_SELECTIVE
    else COMPRESS_MODE_SKIP
  else if targets.isEmpty then
    if 2 ≤ files.length then COMPRESS_MODE_ENTIRE else COMPRESS_MODE_SKIP
  else
    let mc := (targets.map (fun t => counterGet ftypes t)).sum
    if mc < 2 then COMPRESS_MODE_SKIP
    else if mc == files.length then COMPRESS_MODE_ENTIRE
    else COMPRESS_MODE_SELECTIVE

/-- Node of the fast assembler's plan dictionary. -/
inductive FastNode where
  | mk (path name : String) (depth totalFiles : Nat)
       (fileTypes fileExtensions : List (String × Nat))
       (compressMode : String) (children : List FastNode)

def FastNode.name : FastNode → String
  | .mk _ n _ _ _ _ _ _ => n

def FastNode.totalFiles : FastNode → Nat
  | .mk _ _ _ t _ _ _ _ => t

def FastNode.children : FastNode → List FastNode
  | .mk _ _ _ _ _ _ _ cs => cs

/-- Comparison of `children.sort(key=lambda x: x.get(..), reverse=True)` in
`_build_tree_from_scans`: `total_files` descending. -/
def fastFilesRel (a b : FastNode) : Prop := b.totalFiles ≤ a.totalFiles

instance : DecidableRel fastFilesRel := fun a b =>
  inferInstanceAs (Decidable (b.totalFiles ≤ a.totalFiles))

mutual

/-- Source `FastFolderAnalyzer._build_tree_from_scans` over
`scan_tree_parallel` results: blacklisted names are pruned (a
blacklisted-name root scans as empty), children are built from the kept
subdirectory scans and sorted by `total_files` descending. -/
def fastBuild (targets : List String) : String → FsDir → FastNode
  | pathStr, FsDir.mk nm files subdirs =>
    if isBlacklistedName nm then
      FastNode.mk pathStr nm (pathDepth pathStr) 0 [] [] COMPRESS_MODE_SKIP []
    else
      let kept := subdirs.filter (fun s => !isBlacklistedName s.name)
      let hasChildArchive := kept.any (fun s =>
        counterGet (fastCensus s.files) "archive" > 0)
      let children := List.insertionSort fastFilesRel
        (fastBuildList targets pathStr subdirs)
      FastNode.mk pathStr nm (pathDepth pathStr) files.length
        (fastCensus files) (buildExtCount files)
        (fastMode files (fastCensus files) targets hasChildArchive) children

/-- Child construction of the fast assembler: hops over blacklisted names
(those directories are never scanned) and builds the rest in order. -/
def fastBuildList (targets : List String) : String → List FsDir → List FastNode
  | _, [] => []
  | pathStr, d :: rest =>
    if isBlacklistedName d.name then fastBuildList targets pathStr rest
    else fastBuild targets (pathStr ++ "/" ++ d.name) d ::
      fastBuildList targets pathStr rest

end

/-- Modelled from the spec claim's words for refinement comparison: the
directory's own final name matches a blacklist keyword exactly or by
prefix (case-insensitively). -/
def nameExcludedSpec (nm : String) : Bool :=
  BLACKLIST_KEYWORDS.any (fun kw =>
    lowerStr nm == lowerStr kw || strStartsWith (lowerStr nm) (lowerStr kw))

/-- Strict-descendant relation in a plan tree. -/
inductive Subnode : FolderInfo → FolderInfo → Prop where
  | child {c n : FolderInfo} : c ∈ n.children → Subnode c n
  | trans {d c n : FolderInfo} : Subnode d c → c ∈ n.children → Subnode d n

/-- Membership of a node in a plan tree (the root or a strict descendant). -/
def InTree (m n : FolderInfo) : Prop := m = n ∨ Subnode m n

/-- The claims' sibling-ordering property at one node. -/
def childrenSortedByWeightName (n : FolderInfo) : Prop :=
  n.children.Pairwise weightNameRel

/-- Sibling ordering actually imposed by the fast assembler: `total_files`
descending. -/
def fastChildrenSortedByFiles (n : FastNode) : Prop :=
  n.children.Pairwise fastFilesRel

/-- Strict-descendant relation in a fast plan tree. -/
inductive SubnodeFast : FastNode → FastNode → Prop where
  | child {c n : FastNode} : c ∈ n.children → SubnodeFast c n
  | trans {d c n : FastNode} : SubnodeFast d c → c ∈ n.children → SubnodeFast d n

/-- Membership of a node in a fast plan tree. -/
def InTreeFast (m n : FastNode) : Prop := m = n ∨ SubnodeFast m n

mutual

/-- Well-formedness of a filesystem tree: sibling directory names are
pairwise distinct (true of every real filesystem directory). -/
def FsDir.wfNames : FsDir → Bool
  | .mk _ _ subdirs =>
      decide ((subdirs.map FsDir.name).Nodup) && FsDir.wfNamesList subdirs

/-- Well-formedness of a list of sibling subtrees. -/
def FsDir.wfNamesList : List FsDir → Bool
  | [] => true
  | d :: rest => FsDir.wfNames d && FsDir.wfNamesList rest

end

/-- Identity completion order (children complete in submission order). -/
def idOrder : String → List FolderInfo → List FolderInfo := fun _ l => l

/-- Reversed completion order (children complete in reverse order). -/
def revOrder : String → List FolderInfo → List FolderInfo := fun _ l => l.reverse

/-- Two image files and one video file; one file matches the `image` filter. -/
def exSkipFiles : List FsFile := [⟨"a.jpg", ".jpg", 0⟩, ⟨"b.mp4", ".mp4", 0⟩]

/-- A lone cover image, input of the single-image exception. -/
def exLoneJpg : List FsFile := [⟨"cover.jpg", ".jpg", 0⟩]

/-- A lone image for the C5 counterexample. -/
def exLonePng : List FsFile := [⟨"cover.png", ".png", 0⟩]

/-- Three images plus one video: the spec's selective scenario. -/
def exSel4 : List FsFile :=
  [⟨"a.jpg", ".jpg", 0⟩, ⟨"b.jpg", ".jpg", 0⟩, ⟨"c.jpg", ".jpg", 0⟩,
   ⟨"d.mp4", ".mp4", 0⟩]

/-- Two images plus one text file: extended-media-fallback material. -/
def exMediaFiles : List FsFile :=
  [⟨"a.jpg", ".jpg", 0⟩, ⟨"b.jpg", ".jpg", 0⟩, ⟨"c.txt", ".txt", 0⟩]

/-- Filesystem with two sibling directories of equal weight whose file
counts invert the alphabetical order. -/
def exOrderFs : FsDir :=
  .mk "r" []
    [ .mk "adir" [⟨"a.jpg", ".jpg", 0⟩] [],
      .mk "bdir" [⟨"a.jpg", ".jpg", 0⟩, ⟨"b.jpg", ".jpg", 0⟩] [] ]

/-- Small filesystem: a root holding two images and one subdirectory with
two images. -/
def exTreeFs : FsDir :=
  .mk "root" [⟨"r1.jpg", ".jpg", 0⟩, ⟨"r2.jpg", ".jpg", 0⟩]
    [.mk "adir" [⟨"a.jpg", ".jpg", 0⟩, ⟨"b.jpg", ".jpg", 0⟩] []]

/-- Filesystem whose grandchild directory holds an archive. -/
def exArchFs : FsDir :=
  .mk "top" [⟨"t1.jpg", ".jpg", 0⟩, ⟨"t2.jpg", ".jpg", 0⟩]
    [.mk "mid" [⟨"m1.jpg", ".jpg", 0⟩, ⟨"m2.jpg", ".jpg", 0⟩, ⟨"m3.jpg", ".jpg", 0⟩]
      [.mk "zdir" [⟨"x.zip", ".zip", 0⟩, ⟨"a.jpg", ".jpg", 0⟩, ⟨"b.jpg", ".jpg", 0⟩] []]]

/-- Plan tree built over `exTreeFs` with no target filter. -/
def exTreeRoot : FolderInfo :=
  (buildTree idOrder [] false "" "root" 1 exTreeFs).getD default

/-- The single child node of `exTreeRoot`. -/
def exTreeChild : FolderInfo := exTreeRoot.children.headD default

/-- Plan tree built over `exArchFs` with the `image` filter, under the
reversed completion order. -/
def exArchRoot : FolderInfo :=
  (buildTree idOrder ["image"] false "" "top" 1 exArchFs).getD default

/-- The `mid` node of `exArchRoot`. -/
def exArchMid : FolderInfo := exArchRoot.children.headD default

/-- The archive-holding `zdir` node of `exArchRoot`. -/
def exArchZ : FolderInfo := exArchMid.children.headD default

theorem counterGet_counterAdd (m : List (String × Nat)) (k q : String) :
    counterGet (counterAdd m k) q =
      if k = q then counterGet m q + 1 else counterGet m q := by
  induction m with
  | nil =>
      by_cases h : k = q <;> simp [counterAdd, counterGet, h]
  | cons hd tl ih =>
      obtain ⟨a, v⟩ := hd
      by_cases hak : a = k
      · subst hak
        by_cases haq : a = q <;> simp [counterAdd, counterGet, haq]
      · by_cases haq : a = q
        · subst haq
          have hkq : ¬ k = a := fun h => hak h.symm
          simp [counterAdd, counterGet, hak, hkq]
        · simp [counterAdd, counterGet, hak, haq, ih]

theorem buildExtCount_get (files : List FsFile) (e : String) :
    counterGet (buildExtCount files) e =
      files.countP (fun f => decide (lowerStr f.ext = e ∧ e ≠ "")) := by
  suffices h : ∀ (m : List (String × Nat)),
      counterGet (files.foldl (fun m f =>
          if lowerStr f.ext = "" then m else counterAdd m (lowerStr f.ext)) m) e
        = counterGet m e +
          files.countP (fun f => decide (lowerStr f.ext = e ∧ e ≠ "")) by
    simpa [buildExtCount, counterGet] using h []
  intro m
  induction files generalizing m with
  | nil => simp
  | cons f fs ih =>
      rw [List.foldl_cons, List.countP_cons, ih]
      by_cases hfe : lowerStr f.ext = ""
      · have hp : (decide (lowerStr f.ext = e ∧ e ≠ "")) = false := by
          simp only [decide_eq_false_iff_not]
          rintro ⟨h1, h2⟩
          exact h2 (h1.symm.trans hfe)
        rw [if_pos hfe, hp]
        simp
      · rw [if_neg hfe, counterGet_counterAdd]
        by_cases hke : lowerStr f.ext = e
        · have hp : (decide (lowerStr f.ext = e ∧ e ≠ "")) = true := by
            simp only [decide_eq_true_eq]
            exact ⟨hke, fun hh => hfe (hke.trans hh)⟩
          rw [if_pos hke, hp]
          simp
          omega
        · have hp : (decide (lowerStr f.ext = e ∧ e ≠ "")) = false := by
            simp only [decide_eq_false_iff_not]
            rintro ⟨h1, h2⟩
            exact hke h1
          rw [if_neg hke, hp]
          simp

theorem censusOf_get (files : List FsFile) (t : String) :
    counterGet (censusOf files) t =
      files.countP (fun f => getFileType f == some t) := by
  suffices h : ∀ (m : List (String × Nat)),
      counterGet (files.foldl (fun m f => match getFileType f with
          | some u => counterAdd m u
          | none => m) m) t
        = counterGet m t + files.countP (fun f => getFileType f == some t) by
    simpa [censusOf, counterGet] using h []
  intro m
  induction files generalizing m with
  | nil => simp
  | cons f fs ih =>
      rw [List.foldl_cons, List.countP_cons]
      cases hgf : getFileType f with
      | none => simp [hgf, ih]
      | some u =>
          simp only [hgf, ih, counterGet_counterAdd]
          by_cases hut : u = t
          · simp [hut]
            omega
          · simp [hut]

theorem buildExtCount_pos (files : List FsFile) (e : String) :
    0 < counterGet (buildExtCount files) e ↔
      ∃ f ∈ files, lowerStr f.ext = e ∧ e ≠ "" := by
  rw [buildExtCount_get, List.countP_pos_iff]
  simp

theorem censusOf_pos (files : List FsFile) (t : String) :
    0 < counterGet (censusOf files) t ↔ ∃ f ∈ files, getFileType f = some t := by
  rw [censusOf_get, List.countP_pos_iff]
  simp

theorem not_image_of_archive {f : FsFile} (h : getFileType f = some "archive") :
    isFileInTypes f ["image"] = false := by
  simp [isFileInTypes, h]

theorem isSingleImage_false_of_archive (files : List FsFile)
    (h : 0 < counterGet (censusOf files) "archive") :
    isSingleImage files = false := by
  match files with
  | [] => rfl
  | [f] =>
      obtain ⟨g, hg, hgt⟩ := (censusOf_pos [f] "archive").mp h
      have hgf : g = f := by simpa using hg
      subst hgf
      simp [isSingleImage, not_image_of_archive hgt]
  | a :: b :: t => rfl

theorem singleImageFires_false_of_subdirs (si : Bool) (files : List FsFile) :
    singleImageFires si true files = false := by
  simp [singleImageFires]

theorem singleImageFires_false_of_archive (si hsub : Bool) (files : List FsFile)
    (h : 0 < counterGet (censusOf files) "archive") :
    singleImageFires si hsub files = false := by
  simp [singleImageFires, isSingleImage_false_of_archive files h]

theorem determine_mode_cases (si : Bool) (p : String) (hsub : Bool)
    (files : List FsFile) (census : List (String × Nat)) (tg : List String)
    (hchild : Bool) (mc : Nat) :
    (determineCompressMode si p hsub files census tg hchild mc).1 = COMPRESS_MODE_ENTIRE ∨
    (determineCompressMode si p hsub files census tg hchild mc).1 = COMPRESS_MODE_SELECTIVE ∨
    (determineCompressMode si p hsub files census tg hchild mc).1 = COMPRESS_MODE_SKIP := by
  unfold determineCompressMode
  dsimp only
  repeat' split
  all_goals first
    | exact Or.inl rfl
    | exact Or.inr (Or.inl rfl)
    | exact Or.inr (Or.inr rfl)

theorem determine_ne_entire (si : Bool) (p : String) (hsub : Bool)
    (files : List FsFile) (census : List (String × Nat)) (tg : List String)
    (hchild : Bool) (mc : Nat)
    (hsi : singleImageFires si hsub files = false)
    (harch : 0 < counterGet census "archive" ∨ hchild = true) :
    (determineCompressMode si p hsub files census tg hchild mc).1 ≠ COMPRESS_MODE_ENTIRE := by
  unfold determineCompressMode
  dsimp only
  repeat' split
  all_goals first
    | decide
    | simp_all [COMPRESS_MODE_ENTIRE, COMPRESS_MODE_SELECTIVE, COMPRESS_MODE_SKIP]

theorem isEmpty_false_of_ne_nil {α : Type} {l : List α} (h : l ≠ []) :
    l.isEmpty = false := by
  cases l with
  | nil => exact absurd rfl h
  | cons a t => rfl

theorem determine_target_branch (si : Bool) (p : String) (hsub : Bool)
    (files : List FsFile) (tg : List String) (mc : Nat)
    (hne : files ≠ [])
    (hsi : singleImageFires si hsub files = false)
    (hbl : isBlacklistedPath p = false)
    (harch : counterGet (censusOf files) "archive" = 0)
    (htg : tg ≠ []) :
    determineCompressMode si p hsub files (censusOf files) tg false mc =
      (if decide ((matchingFiles files tg).length < mc) then
        (COMPRESS_MODE_SKIP, buildExtCount (matchingFiles files tg))
      else if (matchingFiles files tg).length == files.length &&
          decide (0 < (matchingFiles files tg).length) then
        (COMPRESS_MODE_ENTIRE, buildExtCount (matchingFiles files tg))
      else if tg.contains "image" &&
          decide ((matchingFiles files tg).length < files.length) &&
          tryExtendedMediaMatch files then
        (COMPRESS_MODE_ENTIRE, buildExtCount files)
      else if decide (0 < (matchingFiles files tg).length) then
        (COMPRESS_MODE_SELECTIVE, buildExtCount (matchingFiles files tg))
      else (COMPRESS_MODE_SKIP, buildExtCount (matchingFiles files tg))) := by
  unfold determineCompressMode
  have h0 : files.isEmpty = false := isEmpty_false_of_ne_nil hne
  have ht : tg.isEmpty = false := isEmpty_false_of_ne_nil htg
  have ha : (decide (counterGet (censusOf files) "archive" > 0) || false) = false := by
    rw [harch]
    rfl
  simp only [h0, hsi, hbl, ha, ht, Bool.false_eq_true, if_false]

theorem charListLe_trans : ∀ as bs cs : List Char,
    charListLe as bs = true → charListLe bs cs = true →
    charListLe as cs = true := by
  intro as
  induction as with
  | nil => intro bs cs _ _; rfl
  | cons a as ih =>
      intro bs cs hab hbc
      cases bs with
      | nil => simp [charListLe] at hab
      | cons b bs =>
          cases cs with
          | nil => simp [charListLe] at hbc
          | cons c cs =>
              rw [charListLe] at hab hbc ⊢
              split_ifs at hab hbc ⊢ with h1 h2 h3 h4 h5 h6 <;>
                first
                  | rfl
                  | omega
                  | exact ih bs cs hab hbc

theorem charListLe_total : ∀ as bs : List Char,
    charListLe as bs = true ∨ charListLe bs as = true := by
  intro as
  induction as with
  | nil => intro bs; exact Or.inl rfl
  | cons a as ih =>
      intro bs
      cases bs with
      | nil => exact Or.inr rfl
      | cons b bs =>
          rcases Nat.lt_trichotomy a.toNat b.toNat with h | h | h
          · left
            rw [charListLe]
            simp [h]
          · rcases ih bs with hle | hle
            · left
              rw [charListLe]
              simp [h, Nat.lt_irrefl, hle]
            · right
              rw [charListLe]
              simp [h.symm, Nat.lt_irrefl, hle]
          · right
            rw [charListLe]
            simp [h]

theorem charListLe_antisymm : ∀ as bs : List Char,
    charListLe as bs = true → charListLe bs as = true → as = bs := by
  intro as
  induction as with
  | nil =>
      intro bs h1 _
      cases bs with
      | nil => rfl
      | cons b bs => simp [charListLe] at *
  | cons a as ih =>
      intro bs h1 h2
      cases bs with
      | nil => simp [charListLe] at h1
      | cons b bs =>
          rw [charListLe] at h1 h2
          split_ifs at h1 h2 with hh1 hh2 hh3 hh4 <;> try omega
          have hab : a = b := by
            apply Char.eq_of_val_eq
            apply UInt32.ext
            have hn : a.toNat = b.toNat := by omega
            exact hn
          rw [hab, ih bs h1 h2]

theorem nameLe_trans {a b c : String} (h1 : nameLe a b = true)
    (h2 : nameLe b c = true) : nameLe a c = true :=
  charListLe_trans a.data b.data c.data h1 h2

theorem nameLe_total (a b : String) : nameLe a b = true ∨ nameLe b a = true :=
  charListLe_total a.data b.data

theorem nameLe_antisymm {a b : String} (h1 : nameLe a b = true)
    (h2 : nameLe b a = true) : a = b :=
  String.ext (charListLe_antisymm a.data b.data h1 h2)

instance : IsTrans FolderInfo weightNameRel := by
  constructor
  intro a b c hab hbc
  rcases hab with h1 | ⟨h1, h1n⟩ <;> rcases hbc with h2 | ⟨h2, h2n⟩
  · exact Or.inl (h2.trans h1)
  · exact Or.inl (h2 ▸ h1)
  · exact Or.inl (h1 ▸ h2)
  · exact Or.inr ⟨h1.trans h2, nameLe_trans h1n h2n⟩

instance : IsTotal FolderInfo weightNameRel := by
  constructor
  intro a b
  rcases Nat.lt_trichotomy a.weight b.weight with h | h | h
  · exact Or.inr (Or.inl h)
  · rcases nameLe_total a.name b.name with hn | hn
    · exact Or.inl (Or.inr ⟨h, hn⟩)
    · exact Or.inr (Or.inr ⟨h.symm, hn⟩)
  · exact Or.inl (Or.inl h)

theorem weightNameRel_antisymm {a b : FolderInfo}
    (h1 : weightNameRel a b) (h2 : weightNameRel b a) :
    a.weight = b.weight ∧ a.name = b.name := by
  rcases h1 with h1 | ⟨he1, hn1⟩ <;> rcases h2 with h2 | ⟨he2, hn2⟩
  · omega
  · omega
  · omega
  · exact ⟨he1, nameLe_antisymm hn1 hn2⟩

instance : IsTrans FastNode fastFilesRel := by
  constructor
  intro a b c hab hbc
  exact hbc.trans hab

instance : IsTotal FastNode fastFilesRel := by
  constructor
  intro a b
  exact (Nat.le_total b.totalFiles a.totalFiles).imp id id

theorem assembleNode_children (ps nm pp : String) (dep : Nat) (w : Nat)
    (files : List FsFile) (hs : Bool) (tg : List String) (si : Bool)
    (c1 : List FolderInfo) :
    (assembleNode ps nm pp dep w files hs tg si c1).children =
      List.insertionSort weightNameRel c1 := rfl

theorem assembleNode_fileTypes (ps nm pp : String) (dep : Nat) (w : Nat)
    (files : List FsFile) (hs : Bool) (tg : List String) (si : Bool)
    (c1 : List FolderInfo) :
    (assembleNode ps nm pp dep w files hs tg si c1).fileTypes =
      censusOf files := rfl

theorem assembleNode_name (ps nm pp : String) (dep : Nat) (w : Nat)
    (files : List FsFile) (hs : Bool) (tg : List String) (si : Bool)
    (c1 : List FolderInfo) :
    (assembleNode ps nm pp dep w files hs tg si c1).name = nm := rfl

theorem assembleNode_mode (ps nm pp : String) (dep : Nat) (w : Nat)
    (files : List FsFile) (hs : Bool) (tg : List String) (si : Bool)
    (c1 : List FolderInfo) :
    (assembleNode ps nm pp dep w files hs tg si c1).compressMode =
      (if (List.insertionSort weightNameRel c1).any childNonSkip &&
          (determineCompressMode si ps hs files (censusOf files) tg
            (c1.any childArchOrSkip) 2).1 == COMPRESS_MODE_ENTIRE
       then COMPRESS_MODE_SELECTIVE
       else (determineCompressMode si ps hs files (censusOf files) tg
            (c1.any childArchOrSkip) 2).1) := rfl

theorem assembleNode_sorted (ps nm pp : String) (dep : Nat) (w : Nat)
    (files : List FsFile) (hs : Bool) (tg : List String) (si : Bool)
    (c1 : List FolderInfo) :
    childrenSortedByWeightName (assembleNode ps nm pp dep w files hs tg si c1) := by
  show (List.insertionSort weightNameRel c1).Pairwise weightNameRel
  exact List.sorted_insertionSort weightNameRel c1

theorem buildTree_eq (σ : String → List FolderInfo → List FolderInfo)
    (tg : List String) (si : Bool) (pp ps : String) (dep : Nat)
    (nm : String) (files : List FsFile) (subdirs : List FsDir) :
    buildTree σ tg si pp ps dep (FsDir.mk nm files subdirs) =
      if isBlacklistedPath ps then none
      else some (assembleNode ps nm pp dep
        (calcWeight ps (FsDir.mk nm files subdirs)) files (!subdirs.isEmpty) tg si
        (σ ps (buildTreeList σ tg si ps dep subdirs))) := by
  rw [buildTree]

theorem mem_built {σ : String → List FolderInfo → List FolderInfo}
    {tg : List String} {si : Bool} {ps : String} {dep : Nat}
    {subdirs : List FsDir} {c : FolderInfo} :
    c ∈ buildTreeList σ tg si ps dep subdirs ↔
      ∃ sub ∈ subdirs,
        buildTree σ tg si ps (ps ++ "/" ++ sub.name) (dep + 1) sub = some c := by
  induction subdirs with
  | nil => simp [buildTreeList]
  | cons d rest ih =>
      rw [buildTreeList]
      cases hd : buildTree σ tg si ps (ps ++ "/" ++ d.name) (dep + 1) d with
      | none =>
          simp only [ih]
          constructor
          · rintro ⟨sub, hs, he⟩
            exact ⟨sub, List.mem_cons_of_mem d hs, he⟩
          · rintro ⟨sub, hs, he⟩
            rcases List.mem_cons.mp hs with h | h
            · subst h
              rw [hd] at he
              exact absurd he (by simp)
            · exact ⟨sub, h, he⟩
      | some c0 =>
          simp only [List.mem_cons, ih]
          constructor
          · rintro (h | ⟨sub, hs, he⟩)
            · exact ⟨d, Or.inl rfl, h ▸ hd⟩
            · exact ⟨sub, Or.inr hs, he⟩
          · rintro ⟨sub, hs, he⟩
            rcases hs with h | h
            · subst h
              rw [hd] at he
              exact Or.inl (Option.some.inj he).symm
            · exact Or.inr ⟨sub, h, he⟩

theorem buildTree_mode_cases {σ : String → List FolderInfo → List FolderInfo}
    {tg : List String} {si : Bool} {pp ps : String} {dep : Nat}
    {fs : FsDir} {n : FolderInfo}
    (h : buildTree σ tg si pp ps dep fs = some n) :
    n.compressMode = COMPRESS_MODE_ENTIRE ∨
    n.compressMode = COMPRESS_MODE_SELECTIVE ∨
    n.compressMode = COMPRESS_MODE_SKIP := by
  obtain ⟨nm, files, subdirs⟩ := fs
  rw [buildTree_eq] at h
  split at h
  · exact absurd h (by simp)
  · have hn := Option.some.inj h
    subst hn
    rw [assembleNode_mode]
    split
    · exact Or.inr (Or.inl rfl)
    · exact determine_mode_cases si ps (!subdirs.isEmpty) files (censusOf files) tg _ 2

theorem buildTree_name {σ : String → List FolderInfo → List FolderInfo}
    {tg : List String} {si : Bool} {pp ps : String} {dep : Nat}
    {fs : FsDir} {n : FolderInfo}
    (h : buildTree σ tg si pp ps dep fs = some n) :
    n.name = fs.name := by
  obtain ⟨nm, files, subdirs⟩ := fs
  rw [buildTree_eq] at h
  split at h
  · exact absurd h (by simp)
  · have hn := Option.some.inj h
    subst hn
    rfl

theorem subnode_invert {m n : FolderInfo} (h : Subnode m n) :
    ∃ c ∈ n.children, InTree m c := by
  cases h with
  | child hc => exact ⟨m, hc, Or.inl rfl⟩
  | trans hs hc => exact ⟨_, hc, Or.inr hs⟩

theorem assembleNode_not_entire_of_archive (ps nm pp : String) (dep : Nat)
    (w : Nat) (files : List FsFile) (hs : Bool) (tg : List String) (si : Bool)
    (c1 : List FolderInfo)
    (h : 0 < counterGet (censusOf files) "archive") :
    (assembleNode ps nm pp dep w files hs tg si c1).compressMode ≠
      COMPRESS_MODE_ENTIRE := by
  rw [assembleNode_mode]
  have hne := determine_ne_entire si ps hs files (censusOf files) tg
    (c1.any childArchOrSkip) 2
    (singleImageFires_false_of_archive si hs files h) (Or.inl h)
  split
  · decide
  · exact hne

theorem assembleNode_not_entire_of_children (ps nm pp : String) (dep : Nat)
    (w : Nat) (files : List FsFile) (tg : List String) (si : Bool)
    (c1 : List FolderInfo)
    (hmodes : ∀ c ∈ c1,
      c.compressMode = COMPRESS_MODE_ENTIRE ∨
      c.compressMode = COMPRESS_MODE_SELECTIVE ∨
      c.compressMode = COMPRESS_MODE_SKIP)
    (hne : c1 ≠ []) :
    (assembleNode ps nm pp dep w files true tg si c1).compressMode ≠
      COMPRESS_MODE_ENTIRE := by
  rw [assembleNode_mode]
  by_cases hany : c1.any childArchOrSkip = true
  · have hm := determine_ne_entire si ps true files (censusOf files) tg
      (c1.any childArchOrSkip) 2
      (singleImageFires_false_of_subdirs si files) (Or.inr hany)
    split
    · decide
    · exact hm
  · obtain ⟨c, hc⟩ := List.exists_mem_of_ne_nil c1 hne
    have hall : ∀ x ∈ c1, childArchOrSkip x = false := by
      intro x hx
      by_contra hxx
      exact hany (List.any_eq_true.mpr ⟨x, hx, by simpa using hxx⟩)
    have hns : childNonSkip c = true := by
      rcases hmodes c hc with h | h | h
      · simp [childNonSkip, h, COMPRESS_MODE_ENTIRE, COMPRESS_MODE_SKIP]
      · simp [childNonSkip, h, COMPRESS_MODE_SELECTIVE, COMPRESS_MODE_SKIP]
      · have := hall c hc
        simp [childArchOrSkip, h] at this
    have hany2 : (List.insertionSort weightNameRel c1).any childNonSkip = true :=
      List.any_eq_true.mpr
        ⟨c, (List.perm_insertionSort weightNameRel c1).mem_iff.mpr hc, hns⟩
    rw [hany2]
    by_cases hm : (determineCompressMode si ps true files (censusOf files) tg
        (c1.any childArchOrSkip) 2).1 == COMPRESS_MODE_ENTIRE
    · rw [hm]
      simp only [Bool.true_and, if_pos]
      decide
    · have hm2 := hm
      rw [Bool.not_eq_true] at hm2
      rw [hm2]
      simp only [Bool.true_and, Bool.false_eq_true, if_false]
      exact fun hcon => hm (by simp [hcon])

theorem buildTree_inv (σ : String → List FolderInfo → List FolderInfo)
    (hσ : ∀ p l, List.Perm (σ p l) l) (tg : List String) (si : Bool) :
    ∀ (fs : FsDir) (pp ps : String) (dep : Nat) (n : FolderInfo),
      buildTree σ tg si pp ps dep fs = some n →
      ∀ m, InTree m n →
        (m.children ≠ [] → m.compressMode ≠ COMPRESS_MODE_ENTIRE) ∧
        (0 < counterGet m.fileTypes "archive" →
          m.compressMode ≠ COMPRESS_MODE_ENTIRE) ∧
        childrenSortedByWeightName m
  | FsDir.mk nm files subdirs => by
    intro pp ps dep n hb m hm
    rw [buildTree_eq] at hb
    split at hb
    · exact absurd hb (by simp)
    have hn := Option.some.inj hb
    subst hn
    have hmemc : ∀ c, c ∈ σ ps (buildTreeList σ tg si ps dep subdirs) →
        ∃ sub ∈ subdirs,
          buildTree σ tg si ps (ps ++ "/" ++ sub.name) (dep + 1) sub = some c := by
      intro c hc
      exact mem_built.mp ((hσ ps _).mem_iff.mp hc)
    cases hm with
    | inl heq =>
        subst heq
        refine ⟨?_, ?_, assembleNode_sorted _ _ _ _ _ _ _ _ _ _⟩
        · intro hne
          rw [assembleNode_children] at hne
          have hc1 : σ ps (buildTreeList σ tg si ps dep subdirs) ≠ [] := by
            intro hnil
            rw [hnil] at hne
            simp at hne
          have hsubne : subdirs ≠ [] := by
            obtain ⟨c, hc⟩ := List.exists_mem_of_ne_nil _ hc1
            obtain ⟨sub, hsub, _⟩ := hmemc c hc
            exact List.ne_nil_of_mem hsub
          have hsub : (!subdirs.isEmpty) = true := by
            simp [List.isEmpty_iff, hsubne]
          rw [hsub]
          exact assembleNode_not_entire_of_children ps nm pp dep _ files tg si _
            (fun c hc => buildTree_mode_cases (hmemc c hc).choose_spec.2) hc1
        · intro harch
          rw [assembleNode_fileTypes] at harch
          exact assembleNode_not_entire_of_archive ps nm pp dep _ files _ tg si _ harch
    | inr hsub =>
        obtain ⟨c, hc, hin⟩ := subnode_invert hsub
        rw [assembleNode_children] at hc
        have hc1 : c ∈ σ ps (buildTreeList σ tg si ps dep subdirs) :=
          (List.perm_insertionSort weightNameRel _).mem_iff.mp hc
        obtain ⟨sub, hsubmem, hceq⟩ := hmemc c hc1
        have hsz : sizeOf sub < sizeOf (FsDir.mk nm files subdirs) := by
          have h := List.sizeOf_lt_of_mem hsubmem
          simp only [FsDir.mk.sizeOf_spec]
          omega
        exact buildTree_inv σ hσ tg si sub ps (ps ++ "/" ++ sub.name) (dep + 1) c
          hceq m hin
termination_by fs => sizeOf fs

/-- Claim C1: in every plan tree produced by the bottom-up assembly
(`_build_folder_tree`), for every node `m`, if any descendant of `m` has
`compress_mode` other than `skip`, then `m`'s mode is not `entire` (a node
that would resolve to `entire` on its own census is downgraded to
`selective`). -/
theorem C1_downgrade_invariant
    (σ : String → List FolderInfo → List FolderInfo)
    (hσ : ∀ p l, List.Perm (σ p l) l) (tg : List String) (si : Bool)
    (fs : FsDir) (pp ps : String) (dep : Nat) (n m : FolderInfo)
    (hb : buildTree σ tg si pp ps dep fs = some n)
    (hm : InTree m n)
    (hd : ∃ d, Subnode d m ∧ d.compressMode ≠ COMPRESS_MODE_SKIP) :
    m.compressMode ≠ COMPRESS_MODE_ENTIRE := by
  obtain ⟨d, hdm, _⟩ := hd
  obtain ⟨c, hc, _⟩ := subnode_invert hdm
  exact (buildTree_inv σ hσ tg si fs pp ps dep n hb m hm).1 (List.ne_nil_of_mem hc)

theorem matchingFiles_nil (files : List FsFile) :
    matchingFiles files [] = files := by
  simp [matchingFiles, isFileInTypes]

theorem isSingleImage_false_of_length {files : List FsFile}
    (h : files.length ≠ 1) : isSingleImage files = false := by
  match files with
  | [] => rfl
  | [f] => exact absurd rfl h
  | a :: b :: t => rfl

theorem singleImageFires_false_of_length (si hsub : Bool) {files : List FsFile}
    (h : files.length ≠ 1) : singleImageFires si hsub files = false := by
  simp [singleImageFires, isSingleImage_false_of_length h]

theorem tryExtendedMediaMatchGo_true : ∀ (files : List FsFile) (acc : Bool),
    (∀ f ∈ files, getFileType f = some "image" ∨ getFileType f = some "document" ∨
      getFileType f = some "text") →
    (acc = true ∨ ∃ f ∈ files, getFileType f = some "image") →
    tryExtendedMediaMatchGo files acc = true := by
  intro files
  induction files with
  | nil =>
      intro acc _ hacc
      rcases hacc with h | ⟨f, hf, _⟩
      · exact h
      · exact absurd hf (List.not_mem_nil f)
  | cons f rest ih =>
      intro acc hall hacc
      have hrest : ∀ g ∈ rest, getFileType g = some "image" ∨
          getFileType g = some "document" ∨ getFileType g = some "text" :=
        fun g hg => hall g (List.mem_cons_of_mem f hg)
      rcases hall f (List.mem_cons_self f rest) with hf | hf | hf
      · rw [tryExtendedMediaMatchGo, hf]
        dsimp only
        rw [if_pos (Or.inl rfl)]
        rw [show (("image" : String) == "image") = true from rfl, Bool.or_true]
        exact ih true hrest (Or.inl rfl)
      · rw [tryExtendedMediaMatchGo, hf]
        dsimp only
        rw [if_pos (Or.inr (Or.inl rfl))]
        have hbeq : (("document" : String) == "image") = false := by decide
        rw [hbeq, Bool.or_false]
        apply ih acc hrest
        rcases hacc with h | ⟨g, hg, hgi⟩
        · exact Or.inl h
        · rcases List.mem_cons.mp hg with h | h
          · subst h
            rw [hf] at hgi
            exact absurd (Option.some.inj hgi) (by decide)
          · exact Or.inr ⟨g, h, hgi⟩
      · rw [tryExtendedMediaMatchGo, hf]
        dsimp only
        rw [if_pos (Or.inr (Or.inr rfl))]
        have hbeq : (("text" : String) == "image") = false := by decide
        rw [hbeq, Bool.or_false]
        apply ih acc hrest
        rcases hacc with h | ⟨g, hg, hgi⟩
        · exact Or.inl h
        · rcases List.mem_cons.mp hg with h | h
          · subst h
            rw [hf] at hgi
            exact absurd (Option.some.inj hgi) (by decide)
          · exact Or.inr ⟨g, h, hgi⟩

theorem tryExtendedMediaMatch_true {files : List FsFile}
    (hne : files ≠ [])
    (hall : ∀ f ∈ files, getFileType f = some "image" ∨
      getFileType f = some "document" ∨ getFileType f = some "text")
    (hex : ∃ f ∈ files, getFileType f = some "image") :
    tryExtendedMediaMatch files = true := by
  rw [tryExtendedMediaMatch, isEmpty_false_of_ne_nil hne]
  exact tryExtendedMediaMatchGo_true files false hall (Or.inr hex)

/-- Claim C10 (implicit): a `skip` result does not imply an empty extension
map — for a non-blacklisted folder with no archive present, target types
`["image"]` and exactly one matching file with a non-empty extension (one
`.jpg` beside one `.mp4`), the resolver returns mode `skip` together with
the non-empty extension map counting that one matched `.jpg`. -/
theorem C10_skip_with_nonempty_extensions :
    determineCompressMode false "p" false exSkipFiles (censusOf exSkipFiles)
        ["image"] false 2 = (COMPRESS_MODE_SKIP, [(".jpg", 1)]) ∧
    isBlacklistedPath "p" = false ∧
    counterGet (censusOf exSkipFiles) "archive" = 0 ∧
    (matchingFiles exSkipFiles ["image"]).length = 1 ∧
    lowerStr (FsFile.mk "a.jpg" ".jpg" 0).ext ≠ "" := by decide

/-- Counterexample to claim C3 as stated: with the single-image feature
flag enabled, a non-empty, non-blacklisted folder with no archive present,
non-empty target types and only one matching file (a lone `.jpg`) resolves
to `entire`, not `skip`. -/
theorem C3_counterexample :
    exLoneJpg ≠ [] ∧
    isBlacklistedPath "p" = false ∧
    counterGet (censusOf exLoneJpg) "archive" = 0 ∧
    (matchingFiles exLoneJpg ["image"]).length < 2 ∧
    (determineCompressMode true "p" false exLoneJpg (censusOf exLoneJpg)
        ["image"] false 2).1 = COMPRESS_MODE_ENTIRE := by decide

/-- Claim C3 (amended): for every non-empty, non-blacklisted folder with no
archive present (own census archive count 0, descendant flag false) and a
non-empty `target_types` list, provided the single-image exception does not
fire, the resolver returns `skip` if fewer than 2 files match; `entire`
recording all matched extensions if all files match (count ≥ 2); and, when
the extended-media fallback does not trigger, `selective` recording only
the matched extensions if the count is ≥ 2 but below the total. -/
theorem C3_target_type_resolution
    (si : Bool) (p : String) (hsub : Bool) (files : List FsFile)
    (tg : List String)
    (hne : files ≠ [])
    (hbl : isBlacklistedPath p = false)
    (harch : counterGet (censusOf files) "archive" = 0)
    (htg : tg ≠ [])
    (hsi : singleImageFires si hsub files = false) :
    ((matchingFiles files tg).length < 2 →
      (determineCompressMode si p hsub files (censusOf files) tg false 2).1 =
        COMPRESS_MODE_SKIP) ∧
    (2 ≤ (matchingFiles files tg).length →
      (matchingFiles files tg).length = files.length →
      determineCompressMode si p hsub files (censusOf files) tg false 2 =
        (COMPRESS_MODE_ENTIRE, buildExtCount (matchingFiles files tg))) ∧
    (2 ≤ (matchingFiles files tg).length →
      (matchingFiles files tg).length < files.length →
      ("image" ∈ tg → tryExtendedMediaMatch files = false) →
      determineCompressMode si p hsub files (censusOf files) tg false 2 =
        (COMPRESS_MODE_SELECTIVE, buildExtCount (matchingFiles files tg))) := by
  rw [determine_target_branch si p hsub files tg 2 hne hsi hbl harch htg]
  refine ⟨?_, ?_, ?_⟩
  · intro hlt
    rw [if_pos (by simpa using hlt)]
  · intro hge heq
    rw [if_neg (by simp; omega)]
    rw [if_pos (by simp [heq]; omega)]
  · intro hge hlt hfb
    rw [if_neg (by simp; omega)]
    rw [if_neg (by simp; omega)]
    have hfb2 : (tg.contains "image" &&
        decide ((matchingFiles files tg).length < files.length) &&
        tryExtendedMediaMatch files) = false := by
      by_cases hc : "image" ∈ tg
      · rw [hfb hc]
        simp
      · have : tg.contains "image" = false := by
          by_contra hx
          rw [Bool.not_eq_false] at hx
          exact hc (List.mem_of_elem_eq_true hx)
        rw [this]
        simp
    simp only [hfb2, Bool.false_eq_true, if_false]
    rw [if_pos (by simp; omega)]

theorem C3_target_type_resolution_witness :
    determineCompressMode false "p" false exSel4 (censusOf exSel4)
      ["image"] false 2 = (COMPRESS_MODE_SELECTIVE, [(".jpg", 3)]) := by
  have h := (C3_target_type_resolution false "p" false exSel4 ["image"]
    (by decide) (by decide) (by decide) (by decide) (by decide)).2.2
    (by decide) (by decide) (by decide)
  exact h.trans (by decide)

/-- Counterexample to claim C4 as stated: a blacklisted folder (named
`tmp`) satisfying every stated hypothesis (no archive, `image` among the
target types, at least two matching files, not all matching, every file in
the image/document/text set, at least one image) resolves to `skip`, not
`entire`. -/
theorem C4_counterexample :
    counterGet (censusOf exMediaFiles) "archive" = 0 ∧
    "image" ∈ ["image"] ∧
    2 ≤ (matchingFiles exMediaFiles ["image"]).length ∧
    (matchingFiles exMediaFiles ["image"]).length < exMediaFiles.length ∧
    (∀ f ∈ exMediaFiles, getFileType f = some "image" ∨
      getFileType f = some "document" ∨ getFileType f = some "text") ∧
    (∃ f ∈ exMediaFiles, getFileType f = some "image") ∧
    isBlacklistedPath "tmp" = true ∧
    (determineCompressMode false "tmp" false exMediaFiles
        (censusOf exMediaFiles) ["image"] false 2).1 = COMPRESS_MODE_SKIP := by
  decide

/-- Claim C4 (amended): for every non-blacklisted folder with no archive
present where `target_types` includes `image`, at least `MIN_MATCH` files
match, and not all files match, if every file classifies into the set
image/document/text and at least one file classifies as an image, then the
resolver returns `entire` and records every file's extension (not only the
image extensions). -/
theorem C4_extended_media_fallback
    (si : Bool) (p : String) (hsub : Bool) (files : List FsFile)
    (tg : List String)
    (hbl : isBlacklistedPath p = false)
    (harch : counterGet (censusOf files) "archive" = 0)
    (himg : "image" ∈ tg)
    (hge : 2 ≤ (matchingFiles files tg).length)
    (hlt : (matchingFiles files tg).length < files.length)
    (hall : ∀ f ∈ files, getFileType f = some "image" ∨
      getFileType f = some "document" ∨ getFileType f = some "text")
    (hex : ∃ f ∈ files, getFileType f = some "image") :
    determineCompressMode si p hsub files (censusOf files) tg false 2 =
      (COMPRESS_MODE_ENTIRE, buildExtCount files) := by
  have hne : files ≠ [] := by
    intro h
    rw [h] at hlt
    simp [matchingFiles] at hlt
  have hlen : files.length ≠ 1 := by
    have hle := List.length_filter_le (fun f => isFileInTypes f tg) files
    simp only [matchingFiles] at hge hlt
    omega
  have htg : tg ≠ [] := List.ne_nil_of_mem himg
  rw [determine_target_branch si p hsub files tg 2 hne
    (singleImageFires_false_of_length si hsub hlen) hbl harch htg]
  rw [if_neg (by simp; omega)]
  rw [if_neg (by simp; omega)]
  rw [if_pos]
  rw [show tg.contains "image" = true from List.elem_eq_true_of_mem himg]
  rw [tryExtendedMediaMatch_true hne hall hex]
  simp
  omega

theorem C4_extended_media_fallback_witness :
    determineCompressMode false "p" false exMediaFiles (censusOf exMediaFiles)
      ["image"] false 2 =
      (COMPRESS_MODE_ENTIRE, [(".jpg", 2), (".txt", 1)]) := by
  have h := C4_extended_media_fallback false "p" false exMediaFiles ["image"]
    (by decide) (by decide) (by decide) (by decide) (by decide)
    (by decide) (by decide)
  exact h.trans (by decide)

/-- Counterexample to claim C5 as stated: with the single-image feature
flag enabled, a folder holding exactly one file matching the `image`
filter (a lone `.png`) is resolved to `entire`, not skipped. -/
theorem C5_counterexample :
    (matchingFiles exLonePng ["image"]).length = 1 ∧
    (determineCompressMode true "q" false exLonePng (censusOf exLonePng)
        ["image"] false 2).1 = COMPRESS_MODE_ENTIRE := by decide

set_option maxHeartbeats 1000000 in
/-- Claim C5 (amended): for every node resolved to `selective` (in either
the archive-present branch or the target-type branch) the number of files
matching the active target-type filter is at least 2; and, provided the
single-image exception does not fire, a folder with exactly one matching
file is skipped regardless of how many total files it holds. -/
theorem C5_minimum_match_floor
    (si : Bool) (p : String) (hsub : Bool) (files : List FsFile)
    (tg : List String) (hchild : Bool) :
    ((determineCompressMode si p hsub files (censusOf files) tg hchild 2).1 =
        COMPRESS_MODE_SELECTIVE → 2 ≤ (matchingFiles files tg).length) ∧
    (singleImageFires si hsub files = false →
      (matchingFiles files tg).length = 1 →
      (determineCompressMode si p hsub files (censusOf files) tg hchild 2).1 =
        COMPRESS_MODE_SKIP) := by
  constructor
  · unfold determineCompressMode
    dsimp only
    repeat' split
    all_goals intro hsel
    all_goals simp only [COMPRESS_MODE_ENTIRE, COMPRESS_MODE_SELECTIVE,
      COMPRESS_MODE_SKIP] at hsel
    all_goals simp_all
  · intro hsi hone
    unfold determineCompressMode
    dsimp only
    repeat' split
    all_goals try rfl
    all_goals exfalso
    all_goals simp_all [List.isEmpty_iff, matchingFiles_nil]

theorem C5_minimum_match_floor_witness :
    (determineCompressMode false "p" false exSkipFiles (censusOf exSkipFiles)
        ["image"] false 2).1 = COMPRESS_MODE_SKIP :=
  (C5_minimum_match_floor false "p" false exSkipFiles ["image"] false).2
    (by decide) (by decide)

set_option maxHeartbeats 1000000 in
theorem determine_shape (si : Bool) (p : String) (hsub : Bool)
    (files : List FsFile) (census : List (String × Nat)) (tg : List String)
    (hchild : Bool) (mc : Nat) :
    ((determineCompressMode si p hsub files census tg hchild mc).1 =
        COMPRESS_MODE_ENTIRE →
      (determineCompressMode si p hsub files census tg hchild mc).2 =
          buildExtCount files ∨
      ((determineCompressMode si p hsub files census tg hchild mc).2 =
          buildExtCount (matchingFiles files tg) ∧
        (matchingFiles files tg).length = files.length)) ∧
    ((determineCompressMode si p hsub files census tg hchild mc).1 =
        COMPRESS_MODE_SELECTIVE →
      tg ≠ [] ∧
      (determineCompressMode si p hsub files census tg hchild mc).2 =
          buildExtCount (matchingFiles files tg)) := by
  unfold determineCompressMode
  dsimp only
  repeat' split
  all_goals constructor
  all_goals intro hmode
  all_goals simp only [COMPRESS_MODE_ENTIRE, COMPRESS_MODE_SELECTIVE,
    COMPRESS_MODE_SKIP] at hmode
  all_goals simp_all

/-- Claim C6: for every resolver call resolved to `entire`, the returned
`file_extensions` map covers every direct file's (non-empty, lowercased)
extension — all files, or all files under the extended-media fallback; for
every call resolved to `selective`, it contains only extensions of files
matching the active target-type filter. -/
theorem C6_extension_set_correctness (si : Bool) (p : String) (hsub : Bool)
    (files : List FsFile) (census : List (String × Nat)) (tg : List String)
    (hchild : Bool) (mc : Nat) :
    ((determineCompressMode si p hsub files census tg hchild mc).1 =
        COMPRESS_MODE_ENTIRE →
      ∀ f ∈ files, lowerStr f.ext ≠ "" →
        0 < counterGet
          (determineCompressMode si p hsub files census tg hchild mc).2
          (lowerStr f.ext)) ∧
    ((determineCompressMode si p hsub files census tg hchild mc).1 =
        COMPRESS_MODE_SELECTIVE →
      ∀ e, 0 < counterGet
          (determineCompressMode si p hsub files census tg hchild mc).2 e →
        ∃ f ∈ matchingFiles files tg, lowerStr f.ext = e) := by
  obtain ⟨hE, hS⟩ := determine_shape si p hsub files census tg hchild mc
  constructor
  · intro hm f hf hfe
    rcases hE hm with h2 | ⟨h2, hlen⟩
    · rw [h2]
      exact (buildExtCount_pos _ _).mpr ⟨f, hf, rfl, hfe⟩
    · rw [h2]
      have hall := (List.filter_length_eq_length).mp hlen
      have hmem : f ∈ matchingFiles files tg :=
        List.mem_filter.mpr ⟨hf, hall f hf⟩
      exact (buildExtCount_pos _ _).mpr ⟨f, hmem, rfl, hfe⟩
  · intro hm e he
    obtain ⟨-, h2⟩ := hS hm
    rw [h2] at he
    obtain ⟨f, hf, hfe, -⟩ := (buildExtCount_pos _ _).mp he
    exact ⟨f, hf, hfe⟩

theorem C6_extension_set_correctness_witness :
    0 < counterGet
      (determineCompressMode false "p" false exMediaFiles
        (censusOf exMediaFiles) ["image"] false 2).2 ".txt" :=
  (C6_extension_set_correctness false "p" false exMediaFiles
      (censusOf exMediaFiles) ["image"] false 2).1
    (by decide) (FsFile.mk "c.txt" ".txt" 0) (by decide) (by decide)

theorem subnodeFast_invert {m n : FastNode} (h : SubnodeFast m n) :
    ∃ c ∈ n.children, InTreeFast m c := by
  cases h with
  | child hc => exact ⟨m, hc, Or.inl rfl⟩
  | trans hs hc => exact ⟨_, hc, Or.inr hs⟩

theorem mem_fastBuildList {tg : List String} {ps : String}
    {subdirs : List FsDir} {c : FastNode}
    (h : c ∈ fastBuildList tg ps subdirs) :
    ∃ sub ∈ subdirs, c = fastBuild tg (ps ++ "/" ++ sub.name) sub := by
  induction subdirs with
  | nil => simp [fastBuildList] at h
  | cons d rest ih =>
      rw [fastBuildList] at h
      split at h
      · obtain ⟨sub, hs, he⟩ := ih h
        exact ⟨sub, List.mem_cons_of_mem d hs, he⟩
      · rcases List.mem_cons.mp h with h | h
        · exact ⟨d, List.mem_cons_self d rest, h⟩
        · obtain ⟨sub, hs, he⟩ := ih h
          exact ⟨sub, List.mem_cons_of_mem d hs, he⟩

theorem fastBuild_children (tg : List String) (ps nm : String)
    (files : List FsFile) (subdirs : List FsDir) :
    (fastBuild tg ps (FsDir.mk nm files subdirs)).children =
      if isBlacklistedName nm then []
      else List.insertionSort fastFilesRel (fastBuildList tg ps subdirs) := by
  rw [fastBuild]
  split
  · rfl
  · rfl

theorem fastBuild_sorted (tg : List String) :
    ∀ (fs : FsDir) (ps : String) (m : FastNode),
      InTreeFast m (fastBuild tg ps fs) → fastChildrenSortedByFiles m
  | FsDir.mk nm files subdirs => by
    intro ps m hm
    cases hm with
    | inl heq =>
        subst heq
        show (fastBuild tg ps (FsDir.mk nm files subdirs)).children.Pairwise fastFilesRel
        rw [fastBuild_children]
        split
        · exact List.Pairwise.nil
        · exact List.sorted_insertionSort fastFilesRel _
    | inr hsub =>
        obtain ⟨c, hc, hin⟩ := subnodeFast_invert hsub
        rw [fastBuild_children] at hc
        split at hc
        · exact absurd hc (List.not_mem_nil c)
        · have hc2 := (List.perm_insertionSort fastFilesRel _).mem_iff.mp hc
          obtain ⟨sub, hsubm, hceq⟩ := mem_fastBuildList hc2
          have hsz : sizeOf sub < sizeOf (FsDir.mk nm files subdirs) := by
            have h := List.sizeOf_lt_of_mem hsubm
            simp only [FsDir.mk.sizeOf_spec]
            omega
          exact fastBuild_sorted tg sub (ps ++ "/" ++ sub.name) m (hceq ▸ hin)
termination_by fs => sizeOf fs

/-- Counterexample to claim C7 as stated: in the tree assembled by the fast
scanner (`_build_tree_from_scans`), two sibling directories of equal weight
come out ordered `bdir` before `adir` — by `total_files` descending, not by
name ascending — so children are not sorted by weight descending then name
ascending. -/
theorem C7_counterexample :
    ((fastBuild ["image"] "r" exOrderFs).children.map FastNode.name =
      ["bdir", "adir"]) ∧
    calcWeight "r/adir" (FsDir.mk "adir" [FsFile.mk "a.jpg" ".jpg" 0] []) =
      calcWeight "r/bdir" (FsDir.mk "bdir"
        [FsFile.mk "a.jpg" ".jpg" 0, FsFile.mk "b.jpg" ".jpg" 0] []) ∧
    nameLe "bdir" "adir" = false := by decide

/-- Claim C7 (amended): in every tree assembled by
`FolderAnalyzer._build_folder_tree`, every node's children are sorted by
weight descending and, for equal weights, by name ascending; in every tree
assembled by `FastFolderAnalyzer._build_tree_from_scans`, every node's
children are sorted by `total_files` descending (ties left in completion
order). -/
theorem C7_sibling_ordering :
    (∀ (σ : String → List FolderInfo → List FolderInfo),
      (∀ p l, List.Perm (σ p l) l) →
      ∀ (tg : List String) (si : Bool) (fs : FsDir) (pp ps : String)
        (dep : Nat) (n m : FolderInfo),
        buildTree σ tg si pp ps dep fs = some n → InTree m n →
        childrenSortedByWeightName m) ∧
    (∀ (tg : List String) (ps : String) (fs : FsDir) (m : FastNode),
      InTreeFast m (fastBuild tg ps fs) → fastChildrenSortedByFiles m) := by
  constructor
  · intro σ hσ tg si fs pp ps dep n m hb hm
    exact (buildTree_inv σ hσ tg si fs pp ps dep n hb m hm).2.2
  · intro tg ps fs m hm
    exact fastBuild_sorted tg fs ps m hm

theorem C7_sibling_ordering_witness :
    childrenSortedByWeightName exTreeRoot ∧
    fastChildrenSortedByFiles (fastBuild ["image"] "r" exOrderFs) :=
  ⟨C7_sibling_ordering.1 idOrder (fun _ l => List.Perm.refl l) [] false
    exTreeFs "" "root" 1 exTreeRoot exTreeRoot rfl (Or.inl rfl),
   C7_sibling_ordering.2 ["image"] "r" exOrderFs
    (fastBuild ["image"] "r" exOrderFs) (Or.inl rfl)⟩

theorem hasSubList_iff (pat : List Char) :
    ∀ l : List Char, hasSubList pat l = true ↔ pat <:+: l := by
  intro l
  induction l with
  | nil =>
      rw [hasSubList]
      rw [List.infix_nil]
      simp [List.isEmpty_iff]
  | cons c t ih =>
      rw [hasSubList]
      rw [List.infix_cons_iff]
      simp [ih, List.isPrefixOf_iff_prefix]

/-- Counterexample to claim C8 as stated: the main analyzer excludes a
directory whose path is `xtmpx` (the keyword `tmp` occurs inside the name,
neither exactly nor as a prefix), and the fast scanner does not exclude a
directory named `temp2` although its name starts with the keyword `temp` —
so neither traversal matches the exact-or-prefix rule. -/
theorem C8_counterexample :
    isBlacklistedPath "xtmpx" = true ∧ nameExcludedSpec "xtmpx" = false ∧
    isBlacklistedName "temp2" = false ∧ nameExcludedSpec "temp2" = true := by
  decide

/-- Claim C8 (amended): the main analyzer's traversal excludes a directory
iff some blacklist keyword occurs, case-insensitively, as a substring of
its full path string; the fast scanner excludes a directory iff its
lowercased final name equals a keyword or begins with a keyword followed by
a dot. -/
theorem C8_blacklist_semantics :
    (∀ p : String, isBlacklistedPath p = true ↔
      ∃ kw ∈ BLACKLIST_KEYWORDS, (lowerStr kw).data <:+: (lowerStr p).data) ∧
    (∀ nm : String, isBlacklistedName nm = true ↔
      ∃ kw ∈ BLACKLIST_KEYWORDS, lowerStr nm = lowerStr kw ∨
        (lowerStr kw ++ ".").data <+: (lowerStr nm).data) := by
  constructor
  · intro p
    simp only [isBlacklistedPath, List.any_eq_true, containsSubStr, hasSubList_iff]
  · intro nm
    simp only [isBlacklistedName, List.any_eq_true, Bool.or_eq_true, beq_iff_eq,
      strStartsWith, List.isPrefixOf_iff_prefix]

theorem C8_blacklist_semantics_witness :
    ∃ kw ∈ BLACKLIST_KEYWORDS, (lowerStr kw).data <:+: (lowerStr "data/tmp/x").data :=
  (C8_blacklist_semantics.1 "data/tmp/x").mp (by decide)

theorem perm_any {α : Type} {l₁ l₂ : List α} (h : l₁.Perm l₂)
    (p : α → Bool) : l₁.any p = l₂.any p := by
  cases h1 : l₁.any p <;> cases h2 : l₂.any p
  · rfl
  · obtain ⟨x, hx, hpx⟩ := List.any_eq_true.mp h2
    have := List.any_eq_true.mpr ⟨x, h.mem_iff.mpr hx, hpx⟩
    rw [h1] at this
    exact this
  · obtain ⟨x, hx, hpx⟩ := List.any_eq_true.mp h1
    have := List.any_eq_true.mpr ⟨x, h.mem_iff.mp hx, hpx⟩
    rw [h2] at this
    exact this.symm
  · rfl

theorem perm_sorted_nodup_eq :
    ∀ {l₁ l₂ : List FolderInfo}, l₁.Perm l₂ →
      l₁.Pairwise weightNameRel → l₂.Pairwise weightNameRel →
      (l₂.map FolderInfo.name).Nodup → l₁ = l₂ := by
  intro l₁
  induction l₁ with
  | nil =>
      intro l₂ hperm _ _ _
      exact (hperm.symm.eq_nil).symm
  | cons a t ih =>
      intro l₂ hperm hs1 hs2 hnodup
      cases l₂ with
      | nil => exact absurd hperm.eq_nil (by simp)
      | cons b t₂ =>
          by_cases hab : a = b
          · subst hab
            have hperm2 : t.Perm t₂ := hperm.cons_inv
            have hnodup2 : (a.name :: t₂.map FolderInfo.name).Nodup := by
              rw [List.map_cons] at hnodup
              exact hnodup
            have ht := ih hperm2 (List.pairwise_cons.mp hs1).2
              (List.pairwise_cons.mp hs2).2 (List.nodup_cons.mp hnodup2).2
            rw [ht]
          · exfalso
            have ha2 : a ∈ b :: t₂ := hperm.mem_iff.mp (List.mem_cons_self a t)
            have hat2 : a ∈ t₂ := by
              rcases List.mem_cons.mp ha2 with h | h
              · exact absurd h hab
              · exact h
            have hb1 : b ∈ a :: t := hperm.mem_iff.mpr (List.mem_cons_self b t₂)
            have hbt : b ∈ t := by
              rcases List.mem_cons.mp hb1 with h | h
              · exact absurd h.symm hab
              · exact h
            have hr1 : weightNameRel a b := (List.pairwise_cons.mp hs1).1 b hbt
            have hr2 : weightNameRel b a := (List.pairwise_cons.mp hs2).1 a hat2
            have hname : a.name = b.name := (weightNameRel_antisymm hr1 hr2).2
            have hnodup2 : (b.name :: t₂.map FolderInfo.name).Nodup := by
              rw [List.map_cons] at hnodup
              exact hnodup
            have hn2 := List.nodup_cons.mp hnodup2
            exact hn2.1 (hname ▸ List.mem_map_of_mem FolderInfo.name hat2)

theorem wfNamesList_mem {subdirs : List FsDir}
    (h : FsDir.wfNamesList subdirs = true) :
    ∀ d ∈ subdirs, FsDir.wfNames d = true := by
  induction subdirs with
  | nil => intro d hd; exact absurd hd (List.not_mem_nil d)
  | cons a rest ih =>
      rw [FsDir.wfNamesList, Bool.and_eq_true] at h
      intro d hd
      rcases List.mem_cons.mp hd with he | he
      · exact he ▸ h.1
      · exact ih h.2 d he

theorem buildTreeList_names_sublist
    (σ : String → List FolderInfo → List FolderInfo)
    (tg : List String) (si : Bool) (ps : String) (dep : Nat) :
    ∀ subdirs : List FsDir,
      List.Sublist ((buildTreeList σ tg si ps dep subdirs).map FolderInfo.name)
        (subdirs.map FsDir.name) := by
  intro subdirs
  induction subdirs with
  | nil => simp [buildTreeList]
  | cons d rest ih =>
      rw [buildTreeList]
      cases hd : buildTree σ tg si ps (ps ++ "/" ++ d.name) (dep + 1) d with
      | none =>
          exact List.Sublist.cons d.name ih
      | some c =>
          have hn : c.name = d.name := buildTree_name hd
          rw [List.map_cons, List.map_cons, hn]
          exact List.Sublist.cons₂ d.name ih

theorem assembleNode_perm (ps nm pp : String) (dep : Nat) (w : Nat)
    (files : List FsFile) (hs : Bool) (tg : List String) (si : Bool)
    (c1 c2 : List FolderInfo) (hperm : c1.Perm c2)
    (hnodup : (c2.map FolderInfo.name).Nodup) :
    assembleNode ps nm pp dep w files hs tg si c1 =
      assembleNode ps nm pp dep w files hs tg si c2 := by
  unfold assembleNode
  have hany : c1.any childArchOrSkip = c2.any childArchOrSkip :=
    perm_any hperm childArchOrSkip
  have hsort : List.insertionSort weightNameRel c1 =
      List.insertionSort weightNameRel c2 := by
    apply perm_sorted_nodup_eq
    · exact (List.perm_insertionSort weightNameRel c1).trans
        (hperm.trans (List.perm_insertionSort weightNameRel c2).symm)
    · exact List.sorted_insertionSort weightNameRel c1
    · exact List.sorted_insertionSort weightNameRel c2
    · have hmp := ((List.perm_insertionSort weightNameRel c2).map
        FolderInfo.name).nodup_iff
      exact hmp.mpr hnodup
  rw [hany, hsort]

mutual

theorem buildTree_det (tg : List String) (si : Bool)
    (σ₁ σ₂ : String → List FolderInfo → List FolderInfo)
    (hσ₁ : ∀ p l, List.Perm (σ₁ p l) l)
    (hσ₂ : ∀ p l, List.Perm (σ₂ p l) l) :
    ∀ fs : FsDir, FsDir.wfNames fs = true → ∀ (pp ps : String) (dep : Nat),
      buildTree σ₁ tg si pp ps dep fs = buildTree σ₂ tg si pp ps dep fs
  | FsDir.mk nm files subdirs => by
    intro hwf pp ps dep
    rw [buildTree_eq, buildTree_eq]
    by_cases hbl : isBlacklistedPath ps = true
    · rw [if_pos hbl, if_pos hbl]
    · rw [if_neg hbl, if_neg hbl]
      rw [FsDir.wfNames, Bool.and_eq_true] at hwf
      have hlist := buildTreeList_det tg si σ₁ σ₂ hσ₁ hσ₂ subdirs hwf.2 ps dep
      rw [hlist]
      congr 1
      apply assembleNode_perm
      · exact (hσ₁ ps _).trans (hσ₂ ps _).symm
      · have hnodup : (subdirs.map FsDir.name).Nodup := of_decide_eq_true hwf.1
        have hnl := hnodup.sublist
          (buildTreeList_names_sublist σ₂ tg si ps dep subdirs)
        exact (((hσ₂ ps _).map FolderInfo.name).nodup_iff).mpr hnl

theorem buildTreeList_det (tg : List String) (si : Bool)
    (σ₁ σ₂ : String → List FolderInfo → List FolderInfo)
    (hσ₁ : ∀ p l, List.Perm (σ₁ p l) l)
    (hσ₂ : ∀ p l, List.Perm (σ₂ p l) l) :
    ∀ subdirs : List FsDir, FsDir.wfNamesList subdirs = true →
      ∀ (ps : String) (dep : Nat),
        buildTreeList σ₁ tg si ps dep subdirs =
          buildTreeList σ₂ tg si ps dep subdirs
  | [] => by
      intro _ ps dep
      rfl
  | d :: rest => by
      intro hwf ps dep
      rw [FsDir.wfNamesList, Bool.and_eq_true] at hwf
      rw [buildTreeList, buildTreeList]
      rw [buildTree_det tg si σ₁ σ₂ hσ₁ hσ₂ d hwf.1 ps (ps ++ "/" ++ d.name) (dep + 1)]
      rw [buildTreeList_det tg si σ₁ σ₂ hσ₁ hσ₂ rest hwf.2 ps dep]

end

/-- Counterexample to claim C9 as stated: two runs of the engine over the
same unchanged filesystem tree with the same target types but different
run timestamps serialize different configs — the envelope embeds
`datetime.now()`, so the files are not byte-identical. -/
theorem C9_counterexample :
    generateConfig idOrder [] false "root" exTreeFs "2024-01-01T00:00:00" ≠
      generateConfig idOrder [] false "root" exTreeFs "2024-01-01T00:00:01" :=
  fun h => absurd (congrArg (Option.map ConfigOut.timestamp) h) (by decide)

/-- Claim C9 (amended): the classification and plan generation is
deterministic — over a well-formed filesystem tree (sibling names
distinct), two runs with the same target types produce identical plan
trees regardless of the worker-thread completion order — and the serialized
envelope additionally embeds the run timestamp, so two serialized plan
files coincide byte-for-byte whenever the timestamps also coincide. -/
theorem C9_determinism (σ₁ σ₂ : String → List FolderInfo → List FolderInfo)
    (hσ₁ : ∀ p l, List.Perm (σ₁ p l) l)
    (hσ₂ : ∀ p l, List.Perm (σ₂ p l) l)
    (tg : List String) (si : Bool) (fs : FsDir)
    (hwf : FsDir.wfNames fs = true) (root ts : String) :
    generateConfig σ₁ tg si root fs ts = generateConfig σ₂ tg si root fs ts := by
  unfold generateConfig analyzeFolderStructure
  rw [buildTree_det tg si σ₁ σ₂ hσ₁ hσ₂ fs hwf "" root 1]

theorem C9_determinism_witness :
    generateConfig idOrder [] false "root" exTreeFs "t" =
      generateConfig revOrder [] false "root" exTreeFs "t" :=
  C9_determinism idOrder revOrder (fun _ l => List.Perm.refl l)
    (fun _ l => List.reverse_perm l) [] false exTreeFs (by decide) "root" "t"

theorem C1_downgrade_invariant_witness :
    exTreeRoot.compressMode ≠ COMPRESS_MODE_ENTIRE := by
  apply C1_downgrade_invariant idOrder (fun _ l => List.Perm.refl l) [] false
    exTreeFs "" "root" 1 exTreeRoot exTreeRoot rfl (Or.inl rfl)
  refine ⟨exTreeChild, Subnode.child ?_, ?_⟩
  · show exTreeChild ∈ exTreeRoot.children
    have h : exTreeRoot.children = [exTreeChild] := rfl
    rw [h]
    exact List.mem_cons_self _ _
  · decide

/-- Claim C2: for every node in the produced plan tree, if the node's own
file-type census counts an archive, or the census of any descendant node
does, then that node's `compress_mode` is never `entire`. -/
theorem C2_archive_safety
    (σ : String → List FolderInfo → List FolderInfo)
    (hσ : ∀ p l, List.Perm (σ p l) l) (tg : List String) (si : Bool)
    (fs : FsDir) (pp ps : String) (dep : Nat) (n m : FolderInfo)
    (hb : buildTree σ tg si pp ps dep fs = some n)
    (hm : InTree m n)
    (ha : 0 < counterGet m.fileTypes "archive" ∨
      ∃ d, Subnode d m ∧ 0 < counterGet d.fileTypes "archive") :
    m.compressMode ≠ COMPRESS_MODE_ENTIRE := by
  rcases ha with h | ⟨d, hdm, _⟩
  · exact (buildTree_inv σ hσ tg si fs pp ps dep n hb m hm).2.1 h
  · obtain ⟨c, hc, _⟩ := subnode_invert hdm
    exact (buildTree_inv σ hσ tg si fs pp ps dep n hb m hm).1 (List.ne_nil_of_mem hc)

theorem C2_archive_safety_witness :
    exArchRoot.compressMode ≠ COMPRESS_MODE_ENTIRE := by
  apply C2_archive_safety idOrder (fun _ l => List.Perm.refl l) ["image"] false
    exArchFs "" "top" 1 exArchRoot exArchRoot rfl (Or.inl rfl)
  refine Or.inr ⟨exArchZ, @Subnode.trans exArchZ exArchMid exArchRoot
    (@Subnode.child exArchZ exArchMid ?_) ?_, ?_⟩
  · show exArchZ ∈ exArchMid.children
    have h : exArchMid.children = [exArchZ] := rfl
    rw [h]
    exact List.mem_cons_self _ _
  · show exArchMid ∈ exArchRoot.children
    have h : exArchRoot.children = [exArchMid] := rfl
    rw [h]
    exact List.mem_cons_self _ _
  · decide

end AutoRepack
